import Mathlib

/-!
Verification development for the `eth-retconnin` scripts: a shallow embedding
of the Merkle commitment builder (`scripts/merkle_proofs.py`), the proof
verifier (`scripts/verify_row.py`), the rotating retrying RPC pool
(`scripts/utils_eth.py`) and the candidate harvester
(`scripts/harvest_candidates.py`), together with theorems about them.

Bytes are modelled as natural numbers below 256 in `List Nat`; machine
integers of the hash computation are naturals reduced `% 2^32` exactly where
the 32-bit arithmetic of SHA-256 wraps.
-/

namespace EthRetcon

/-! ## SHA-256 (the `hashlib.sha256` primitive used by the scripts) -/

/-- `2^32`, the modulus of SHA-256 word arithmetic. -/
def w32 : Nat := 4294967296

/-- Rotate the 32-bit word `x` right by `n` positions. -/
def rotr (n x : Nat) : Nat := ((x >>> n) ||| (x <<< (32 - n))) % w32

/-- SHA-256 round constants. -/
def sha256K : List Nat :=
  [1116352408, 1899447441, 3049323471, 3921009573, 961987163,
   1508970993, 2453635748, 2870763221, 3624381080, 310598401,
   607225278, 1426881987, 1925078388, 2162078206, 2614888103,
   3248222580, 3835390401, 4022224774, 264347078, 604807628,
   770255983, 1249150122, 1555081692, 1996064986, 2554220882,
   2821834349, 2952996808, 3210313671, 3336571891, 3584528711,
   113926993, 338241895, 666307205, 773529912, 1294757372,
   1396182291, 1695183700, 1986661051, 2177026350, 2456956037,
   2730485921, 2820302411, 3259730800, 3345764771, 3516065817,
   3600352804, 4094571909, 275423344, 430227734, 506948616,
   659060556, 883997877, 958139571, 1322822218, 1537002063,
   1747873779, 1955562222, 2024104815, 2227730452, 2361852424,
   2428436474, 2756734187, 3204031479, 3329325298]

/-- SHA-256 initial hash state. -/
def sha256H0 : List Nat :=
  [1779033703, 3144134277, 1013904242, 2773480762,
   1359893119, 2600822924, 528734635, 1541459225]

/-- Group bytes into big-endian 32-bit words. -/
def toWordsBE : List Nat → List Nat
  | a :: b :: c :: d :: rest => (((a * 256 + b) * 256 + c) * 256 + d) :: toWordsBE rest
  | _ => []

/-- `count` bytes of `n`, big-endian. -/
def natToBytesBE : Nat → Nat → List Nat
  | _, 0 => []
  | n, c + 1 => natToBytesBE (n >>> 8) c ++ [n % 256]

/-- SHA-256 `σ₀`. -/
def smallSigma0 (x : Nat) : Nat := (rotr 7 x) ^^^ (rotr 18 x) ^^^ (x >>> 3)

/-- SHA-256 `σ₁`. -/
def smallSigma1 (x : Nat) : Nat := (rotr 17 x) ^^^ (rotr 19 x) ^^^ (x >>> 10)

/-- SHA-256 `Σ₀`. -/
def bigSigma0 (x : Nat) : Nat := (rotr 2 x) ^^^ (rotr 13 x) ^^^ (rotr 22 x)

/-- SHA-256 `Σ₁`. -/
def bigSigma1 (x : Nat) : Nat := (rotr 6 x) ^^^ (rotr 11 x) ^^^ (rotr 25 x)

/-- Extend the 16 message words to the 64-entry schedule. -/
def sha256Schedule (ws : List Nat) : List Nat :=
  (List.range 48).foldl
    (fun w _ =>
      let i := w.length
      let s0 := smallSigma0 (w.getD (i - 15) 0)
      let s1 := smallSigma1 (w.getD (i - 2) 0)
      w ++ [(w.getD (i - 16) 0 + s0 + w.getD (i - 7) 0 + s1) % w32])
    ws

/-- One SHA-256 round on the state `[a,b,c,d,e,f,g,h]`. -/
def sha256Round (st : List Nat) (kw : Nat × Nat) : List Nat :=
  match st with
  | [a, b, c, d, e, f, g, h] =>
    let ch := (e &&& f) ^^^ ((e ^^^ 0xffffffff) &&& g)
    let maj := (a &&& b) ^^^ (a &&& c) ^^^ (b &&& c)
    let t1 := (h + bigSigma1 e + ch + kw.1 + kw.2) % w32
    let t2 := (bigSigma0 a + maj) % w32
    [(t1 + t2) % w32, a, b, c, (d + t1) % w32, e, f, g]
  | st => st

/-- Compress one 64-byte block into the running state. -/
def sha256Compress (h : List Nat) (block : List Nat) : List Nat :=
  let w := sha256Schedule (toWordsBE block)
  let st := (sha256K.zip w).foldl sha256Round h
  (h.zip st).map (fun p => (p.1 + p.2) % w32)

/-- SHA-256 padding: append `0x80`, zeros to 56 mod 64, and the 64-bit
big-endian bit length. -/
def sha256Pad (msg : List Nat) : List Nat :=
  let zeros := (64 + 56 - (msg.length + 1) % 64) % 64
  msg ++ 0x80 :: List.replicate zeros 0 ++ natToBytesBE (8 * msg.length) 8

/-- Split a byte list into 64-byte blocks; the fuel bounds the number of
blocks and is set to the list length, which always suffices because each
block consumes at least one byte. -/
def chunks64Go : Nat → List Nat → List (List Nat)
  | 0, _ => []
  | _, [] => []
  | fuel + 1, l => l.take 64 :: chunks64Go fuel (l.drop 64)

/-- Split a byte list into 64-byte blocks. -/
def chunks64 (l : List Nat) : List (List Nat) := chunks64Go l.length l

/-- Full SHA-256 of a byte string, as a 32-byte digest. -/
def sha256 (msg : List Nat) : List Nat :=
  let hs := (chunks64 (sha256Pad msg)).foldl sha256Compress sha256H0
  (hs.map (fun x => natToBytesBE x 4)).flatten

/-! ## Merkle commitment builder (`scripts/merkle_proofs.py`) and proof
verifier (`scripts/verify_row.py`)

The tree-shape definitions are generic in the hash primitive `H`; the
scripts instantiate `H` with `sha256`.  A record field is modelled as the
UTF-8 byte encoding of its `str()` form, `none` for Python `None`. -/

/-- `canonical_row_bytes(row)`: join the string forms of the fields with the
unit separator `0x1F`, a `None` field contributing the empty string, then
UTF-8 encode (joining the encoded fields with the `0x1F` byte). -/
def canonical_row_bytes (row : List (Option (List Nat))) : List Nat :=
  (List.intersperse [0x1f] (row.map (fun c => c.getD []))).flatten

/-- `Hleaf(b) = sha256(b'\x00' + b)`, generic in the hash primitive. -/
def Hleaf (H : List Nat → List Nat) (b : List Nat) : List Nat := H (0x00 :: b)

/-- `Hnode(a, b) = sha256(b'\x01' + a + b)`, generic in the hash primitive. -/
def Hnode (H : List Nat → List Nat) (a b : List Nat) : List Nat :=
  H (0x01 :: (a ++ b))

/-- One pass of the layer-building loop in `MerkleTree.__init__`: adjacent
nodes are paired left to right; an unpaired final node (`i + 1 ==
len(layer)`) is hashed with itself (`b = layer[i]`). -/
def nextLayer (H : List Nat → List Nat) : List (List Nat) → List (List Nat)
  | [] => []
  | [a] => [Hnode H a a]
  | a :: b :: rest => Hnode H a b :: nextLayer H rest

/-- The `while len(self.layers[-1]) > 1` loop of `MerkleTree.__init__`,
collecting every layer starting from the given bottom layer.  The fuel
bounds the number of iterations; since each iteration strictly shrinks the
layer, fuel equal to the bottom layer's length always suffices. -/
def buildFromGo (H : List Nat → List Nat) :
    Nat → List (List Nat) → List (List (List Nat))
  | 0, layer => [layer]
  | fuel + 1, layer =>
    if layer.length ≤ 1 then [layer]
    else layer :: buildFromGo H fuel (nextLayer H layer)

namespace MerkleTree

/-- `MerkleTree.layers` after `__init__`: empty when there are no leaves,
otherwise all layers from the hashed leaves up to the single root node. -/
def layers (H : List Nat → List Nat) (leaves : List (List Nat)) :
    List (List (List Nat)) :=
  let hl := leaves.map (Hleaf H)
  if hl = [] then [] else buildFromGo H hl.length hl

/-- First node of the last layer of a layer list (`self.layers[-1][0]`). -/
def rootOf (L : List (List (List Nat))) : List Nat := (L.getLastD []).getD 0 []

/-- `MerkleTree.root()`: `b''` when there are no layers, else
`self.layers[-1][0]`. -/
def root (H : List Nat → List Nat) (leaves : List (List Nat)) : List Nat :=
  let L := layers H leaves
  if L = [] then [] else rootOf L

end MerkleTree

/-- One emitted proof step: a sibling digest and whether the sibling sits to
the left of the current node.  The script serializes the digest as a hex
string; hex encoding is a bijection on digests, so the digest bytes are kept
directly. -/
structure ProofStep where
  sib : List Nat
  is_left : Bool
deriving DecidableEq, Repr

/-- The `for layer in self.layers[:-1]` loop of `MerkleTree.proof`: at each
layer the partner index is `cur ^ 1`; if it exists, its node is emitted with
`is_left = (pair % 2 == 0)`, otherwise the current node's own hash is
emitted with `is_left = False`; then `cur //= 2`. -/
def proofLoop (H : List Nat → List Nat) :
    List (List (List Nat)) → Nat → List ProofStep
  | [], _ => []
  | layer :: rest, cur =>
    let pair := cur ^^^ 1
    (if pair < layer.length then
      ⟨layer.getD pair [], pair % 2 == 0⟩
    else
      ⟨layer.getD cur [], false⟩) :: proofLoop H rest (cur / 2)

/-- `MerkleTree.proof(idx)`. -/
def MerkleTree.proof (H : List Nat → List Nat) (leaves : List (List Nat))
    (idx : Nat) : List ProofStep :=
  proofLoop H (MerkleTree.layers H leaves).dropLast idx

/-- One step of the verification loop in `scripts/verify_row.py`:
`cur = Hnode(sib, cur)` when the step's `is_left` flag is set, else
`cur = Hnode(cur, sib)`. -/
def verifyStep (H : List Nat → List Nat) (cur : List Nat) (p : ProofStep) :
    List Nat :=
  if p.is_left then Hnode H p.sib cur else Hnode H cur p.sib

/-- The whole verification loop of `scripts/verify_row.py`, starting from
`cur = Hleaf(canonical_row_bytes(row))` supplied by the caller. -/
def verifyChain (H : List Nat → List Nat) (steps : List ProofStep)
    (start : List Nat) : List Nat :=
  steps.foldl (verifyStep H) start

/-! ## Rotating RPC pool (`scripts/utils_eth.py`)

Network I/O is modelled by an oracle (`net`, `probe`, …) giving the
observable outcome of each attempted request; the pool's own control flow is
embedded directly. -/

/-- The built-in fallback endpoints `FREE_RPC_FALLBACKS`. -/
def FREE_RPC_FALLBACKS : List String :=
  ["https://cloudflare-eth.com",
   "https://ethereum-rpc.publicnode.com",
   "https://rpc.ankr.com/eth",
   "https://eth.public-rpc.com",
   "https://1rpc.io/eth"]

/-- The `urls` constructor argument of `RpcPool`: `None`, a comma-separated
string, or a list of strings. -/
inductive UrlsArg where
  | omitted
  | str (s : String)
  | list (l : List String)
deriving DecidableEq, Repr

/-- Python `str.strip()`: drop whitespace from both ends of a character
list. -/
def trimChars (cs : List Char) : List Char :=
  ((cs.dropWhile Char.isWhitespace).reverse.dropWhile Char.isWhitespace).reverse

/-- Python `str.split(",")` on a character list: `"".split(",") == [""]`,
empty segments between consecutive commas are kept. -/
def splitComma : List Char → List (List Char)
  | [] => [[]]
  | c :: rest =>
    let r := splitComma rest
    if c = ',' then [] :: r
    else (c :: r.headD []) :: r.tail

/-- Python `u.strip()` on a string. -/
def pyStrip (s : String) : String := ⟨trimChars s.data⟩

/-- Python `urls.split(",")` on a string. -/
def pySplitComma (s : String) : List String := (splitComma s.data).map (fun cs => ⟨cs⟩)

/-- `_parse_urls`: split a string on commas, strip every entry and drop the
empty ones; same stripping and dropping for a list argument; `None` gives
the empty list. -/
def _parse_urls : UrlsArg → List String
  | .omitted => []
  | .str s => ((pySplitComma s).map pyStrip).filter (fun u => u ≠ "")
  | .list l => (l.map pyStrip).filter (fun u => u ≠ "")

/-- The endpoint-list resolution in `RpcPool.__init__`:
`_parse_urls(urls) or env_urls or FREE_RPC_FALLBACKS[:]`, where `env_urls`
parses the `ETH_RPC_URL` environment value (empty string when unset). -/
def RpcPool.resolvedUrls (urls : UrlsArg) (env : String) : List String :=
  let env_urls := _parse_urls (.str env)
  let parsed := _parse_urls urls
  if parsed ≠ [] then parsed
  else if env_urls ≠ [] then env_urls
  else FREE_RPC_FALLBACKS

/-- `RpcPool.__init__`'s endpoint validation: `raise ValueError("No RPC
endpoints configured")` exactly when the resolved list is empty, otherwise
the pool holds that list. -/
def RpcPool.init (urls : UrlsArg) (env : String) : Except String (List String) :=
  let u := RpcPool.resolvedUrls urls env
  if u = [] then .error "No RPC endpoints configured" else .ok u

/-- The mutable selection state of a pool: its endpoint list and the
round-robin cursor `_rr`. -/
structure RpcPool where
  urls : List String
  rr : Nat
deriving DecidableEq, Repr

/-- `RpcPool._pick`: return `self.urls[self._rr % len(self.urls)]` and
advance the cursor by one. -/
def RpcPool._pick (p : RpcPool) : String × RpcPool :=
  (p.urls.getD (p.rr % p.urls.length) "", ⟨p.urls, p.rr + 1⟩)

/-- The endpoints returned by `n` consecutive `_pick` calls, in order. -/
def RpcPool.selections (p : RpcPool) : Nat → List String
  | 0 => []
  | n + 1 => p._pick.1 :: RpcPool.selections p._pick.2 n

/-- How many of the first `N` picks land on the endpoint at index `j`. -/
def RpcPool.selCount (p : RpcPool) (N j : Nat) : Nat :=
  ((List.range N).filter (fun k => decide ((p.rr + k) % p.urls.length = j))).length

/-- JSON values, modelling `json.loads` results. -/
inductive Json where
  | null
  | bool (b : Bool)
  | num (n : Int)
  | str (s : String)
  | arr (elems : List Json)
  | obj (fields : List (String × Json))

/-- `isinstance(data, dict) and "error" in data`. -/
def Json.hasErrorKey : Json → Bool
  | .obj fields => fields.any (fun kv => kv.1 == "error")
  | _ => false

/-- `data["error"]` of a JSON object (`null` when absent; `post` only reads
it under `hasErrorKey`). -/
def Json.getError : Json → Json
  | .obj fields => ((fields.find? (fun kv => kv.1 == "error")).getD ("error", .null)).2
  | _ => .null

/-- A rendering of a JSON value into the error text, standing in for
Python's `str()` interpolation of `data['error']` inside the
`f"rpc_error …"` message; the exact rendering of nested values is
abstracted, no claim inspects this text. -/
def jsonRepr : Json → String
  | .null => "None"
  | .bool true => "True"
  | .bool false => "False"
  | .num n => toString n
  | .str s => s
  | .arr _ => "[…]"
  | .obj _ => "{…}"

/-- The observable outcome of one HTTP POST attempt inside `RpcPool.post`:
either the attempt raised (timeout, transport failure), or a response
arrived with an HTTP status, a body text, and the result of `json.loads` on
that text (`none` when the body is not valid JSON). -/
inductive HttpAttempt where
  | exn (msg : String)
  | resp (status : Nat) (text : String) (body : Option Json)

/-- Does this attempt outcome make `RpcPool.post` sleep and retry
(exception, HTTP 429, HTTP ≥ 500, other non-200 status, or a 200 JSON
object carrying an `"error"` field)? -/
def HttpAttempt.retryable : HttpAttempt → Bool
  | .exn _ => true
  | .resp status _ body =>
    if status == 200 then
      match body with
      | some data => data.hasErrorKey
      | none => false
    else true

/-- The `last_err` text recorded by the retrying branches of `RpcPool.post`
for one attempt against `url`, mirroring the source's f-strings. -/
def HttpAttempt.errText (url : String) : HttpAttempt → String
  | .exn msg => url ++ ": " ++ msg
  | .resp status text body =>
    if status == 429 then "429 " ++ url ++ ": " ++ text.take 160
    else if 500 ≤ status then toString status ++ " " ++ url ++ ": " ++ text.take 160
    else if status ≠ 200 then toString status ++ " " ++ url ++ ": " ++ text.take 160
    else match body with
      | some data => "rpc_error " ++ url ++ ": " ++ jsonRepr data.getError
      | none => ""

/-- The `data` component of `RpcPool.post`'s `(ok, data)` result: the
parsed JSON body on success, the dict
`{"error": "invalid_json", "text": text[:400]}` for an unparseable 200
body, or the dict `{"error": last_err}` after exhausting every attempt
(`last_err` is `None` only when fewer than one attempt was configured). -/
inductive PostData where
  | json (j : Json)
  | invalid_json (text : String)
  | errObj (last_err : Option String)

/-- The retry loop of `RpcPool.post` (`for attempt in range(1,
max_retries + 1)`) with the branch structure of the source: pick the next
endpoint, classify the outcome, either return or record `last_err` and
retry.  Backoff sleeps do not affect the result and are not modelled.
Returns `(ok, data)` together with the number of attempts consumed. -/
def postGo (net : Nat → String → HttpAttempt) :
    Nat → Nat → RpcPool → Option String → Bool × PostData × Nat
  | 0, _, _, last_err => (false, .errObj last_err, 0)
  | fuel + 1, attempt, p, _last_err =>
    let url := p._pick.1
    let retry := fun (e : String) =>
      let r := postGo net fuel (attempt + 1) p._pick.2 (some e)
      (r.1, r.2.1, r.2.2 + 1)
    match net attempt url with
    | .exn msg => retry (url ++ ": " ++ msg)
    | .resp status text body =>
      if status == 429 then retry ("429 " ++ url ++ ": " ++ text.take 160)
      else if 500 ≤ status then
        retry (toString status ++ " " ++ url ++ ": " ++ text.take 160)
      else if status ≠ 200 then
        retry (toString status ++ " " ++ url ++ ": " ++ text.take 160)
      else
        match body with
        | none => (false, .invalid_json (text.take 400), 1)
        | some data =>
          if data.hasErrorKey then
            retry ("rpc_error " ++ url ++ ": " ++ jsonRepr data.getError)
          else (true, .json data, 1)

/-- The endpoint used `d` picks after state `p`: successive attempts
advance the cursor by one, so attempt `k` of a `post` that starts in state
`p` hits `urlAt p (k - 1)`. -/
def urlAt (p : RpcPool) (d : Nat) : String :=
  p.urls.getD ((p.rr + d) % p.urls.length) ""

/-- `RpcPool.post(payload)`: run the attempt loop, starting at attempt 1
with no recorded error.  The payload is fixed inside the oracle `net`,
which maps an attempt number and the endpoint chosen for it to the
attempt's observable outcome. -/
def RpcPool.post (net : Nat → String → HttpAttempt) (p : RpcPool)
    (max_retries : Nat) : Bool × PostData × Nat :=
  postGo net max_retries 1 p none

/-! ## Candidate harvester (`scripts/harvest_candidates.py`) -/

/-- `BATCH_RETRIES` from the script. -/
def BATCH_RETRIES : Nat := 3

/-- `SINGLE_RETRIES` from the script. -/
def SINGLE_RETRIES : Nat := 3

/-- A transaction object, reduced to the fields the harvester reads:
`from` and `to` (keyword clashes force the names `frm` and `to'`). -/
structure Tx where
  frm : Option String
  to' : Option String
deriving DecidableEq, Repr

/-- A block object, reduced to its transaction list. -/
structure Block where
  transactions : List Tx
deriving DecidableEq, Repr

/-- `int(s, 16)` on a block-number string: optional surrounding whitespace,
optional `0x`/`0X` prefix, at least one hex digit; `none` models the
`ValueError` path (signs and digit-group underscores, never produced by RPC
block numbers, are not modelled). -/
def hexDigit? (c : Char) : Option Nat :=
  if '0' ≤ c ∧ c ≤ '9' then some (c.toNat - '0'.toNat)
  else if 'a' ≤ c ∧ c ≤ 'f' then some (c.toNat - 'a'.toNat + 10)
  else if 'A' ≤ c ∧ c ≤ 'F' then some (c.toNat - 'A'.toNat + 10)
  else none

/-- See `hexDigit?`. -/
def int16? (s : String) : Option Nat :=
  let cs :=
    match trimChars s.data with
    | '0' :: 'x' :: rest => rest
    | '0' :: 'X' :: rest => rest
    | cs => cs
  if cs = [] then none
  else
    cs.foldl
      (fun acc c =>
        match acc, hexDigit? c with
        | some v, some d => some (16 * v + d)
        | _, _ => none)
      (some 0)

/-- The decoded response to the `eth_blockNumber` probe, as far as
`main_async` inspects it: a dict whose `"result"` is a string, a dict
without a usable `"result"` (a non-string `"result"` raises inside `int`
and is caught, behaving identically), a bare string, or anything else. -/
inductive BlockNumResp where
  | dictResult (v : String)
  | dictOther
  | rawStr (s : String)
  | other
deriving DecidableEq, Repr

/-- One attempt of the latest-block resolution: on a successful post a
dict's `"result"` is hex-parsed; failing that, a bare-string response is
hex-parsed; everything else leaves `latest` unresolved for this attempt. -/
def latestOfAttempt : Bool × BlockNumResp → Option Nat
  | (false, _) => none
  | (true, .dictResult v) => int16? v
  | (true, .rawStr s) => int16? s
  | (true, _) => none

/-- The `for attempt in range(1, 5)` resolution loop of `main_async`: the
attempts actually made are numbered 1, 2, 3 and 4, and the first one that
resolves wins. -/
def resolveLatest (probe : Nat → Bool × BlockNumResp) : Option Nat :=
  ((List.range 4).map (fun k => latestOfAttempt (probe (k + 1)))).foldl
    (fun acc r => acc.orElse (fun _ => r)) none

/-- The outcome of `main_async`'s bound resolution: either the run
terminates early after writing an output file holding only the CSV header
`"address\n"`, or harvesting proceeds from the resolved latest block. -/
inductive HarvestStart where
  | earlyEmpty (fileContent : String)
  | proceed (latest : Nat)
deriving DecidableEq, Repr

/-- The `for…else` around the resolution loop: unresolved means write the
header-only file and return; resolved means scan up to `latest`. -/
def harvestStart (probe : Nat → Bool × BlockNumResp) : HarvestStart :=
  match resolveLatest probe with
  | none => .earlyEmpty "address\n"
  | some latest => .proceed latest

/-- `fetch_block_with_retries`: up to `retries` single-block fetches, the
outcome of attempt `a` given by `single a`; the first non-`None` block is
returned, else `None`. -/
def fetch_block_with_retries (single : Nat → Option Block) (retries : Nat) :
    Option Block :=
  ((List.range retries).map (fun a => single (a + 1))).foldl
    (fun acc r => acc.orElse (fun _ => r)) none

/-- The per-chunk batch retry loop of `main_async` (`for br_attempt in
range(1, BATCH_RETRIES + 1)`): the first non-`None` batched result, else
`None`.  `batchTry a` is the value of `fetch_batch_blocks` for the chunk on
attempt `a` (`None` when the batched call failed outright). -/
def batchWithRetries (batchTry : Nat → Option (List (Option Block)))
    (retries : Nat) : Option (List (Option Block)) :=
  ((List.range retries).map (fun a => batchTry (a + 1))).foldl
    (fun acc r => acc.orElse (fun _ => r)) none

/-- Per-chunk results: the batched results when some batch attempt
succeeded, else one independent per-member fetch (with its own retries) for
every chunk member.  `single n a` is the outcome of attempt `a` of the
single fetch of block `n`. -/
def chunkResults (batchTry : Nat → Option (List (Option Block)))
    (single : Nat → Nat → Option Block) (chunk : List Nat) :
    List (Option Block) :=
  match batchWithRetries batchTry BATCH_RETRIES with
  | some res => res
  | none => chunk.map (fun n => fetch_block_with_retries (single n) SINGLE_RETRIES)

/-- Addresses contributed by one block: for each transaction its `from` and
`to` fields when present and non-empty (`if frm:` / `if to:`); the
checksum-casing normalization keeps the address either way and is not
modelled. -/
def blockAddrs (b : Block) : List String :=
  b.transactions.flatMap
    (fun t =>
      (match t.frm with
       | some s => if s ≠ "" then [s] else []
       | none => []) ++
      (match t.to' with
       | some s => if s ≠ "" then [s] else []
       | none => []))

/-- Address extraction over one chunk's results (`if not blk_item:
continue`): missing members contribute nothing. -/
def extractAddrs (res : List (Option Block)) : List String :=
  res.flatMap (fun o => match o with | none => [] | some b => blockAddrs b)

/-- The whole chunk sweep: every chunk is processed and its addresses
collected; a failed chunk or member never aborts the run. -/
def harvestChunks (batchTry : List Nat → Nat → Option (List (Option Block)))
    (single : Nat → Nat → Option Block) (chunks : List (List Nat)) :
    List String :=
  chunks.flatMap (fun c => extractAddrs (chunkResults (batchTry c) single c))

/-! ## Generic Merkle-tree lemmas -/

/-- The partner index of an even position is the position to its right. -/
theorem two_mul_xor_one (k : Nat) : 2 * k ^^^ 1 = 2 * k + 1 := by
  have h1 : (1 : Nat) = Nat.bit true 0 := by simp [Nat.bit]
  have h2 : 2 * k = Nat.bit false k := by simp [Nat.bit]
  rw [h2, h1, Nat.xor_bit]
  simp [Nat.bit]

/-- The partner index of an odd position is the position to its left. -/
theorem two_mul_add_one_xor_one (k : Nat) : (2 * k + 1) ^^^ 1 = 2 * k := by
  have h1 : (1 : Nat) = Nat.bit true 0 := by simp [Nat.bit]
  have h2 : 2 * k + 1 = Nat.bit true k := by simp [Nat.bit]
  rw [h2, h1, Nat.xor_bit]
  simp [Nat.bit]

/-- One pairing pass halves the layer, rounding up. -/
theorem nextLayer_length (H : List Nat → List Nat) (l : List (List Nat)) :
    (nextLayer H l).length = (l.length + 1) / 2 := by
  match l with
  | [] => simp [nextLayer]
  | [a] => simp [nextLayer]
  | a :: b :: rest =>
    simp only [nextLayer, List.length_cons, nextLayer_length H rest]
    omega

/-- The `k`-th node of the next layer pairs nodes `2k` and `2k + 1`, the
latter replaced by node `2k` itself when it does not exist. -/
theorem nextLayer_getD (H : List Nat → List Nat) :
    ∀ (l : List (List Nat)) (k : Nat), 2 * k < l.length →
      (nextLayer H l).getD k [] =
        Hnode H (l.getD (2 * k) [])
          (if 2 * k + 1 < l.length then l.getD (2 * k + 1) []
           else l.getD (2 * k) [])
  | [], k, hk => by simp at hk
  | [a], 0, _ => by simp [nextLayer]
  | [a], k + 1, hk => by simp at hk
  | a :: b :: rest, 0, _ => by simp [nextLayer]
  | a :: b :: rest, k + 1, hk => by
    have hk' : 2 * k < rest.length := by
      simp only [List.length_cons] at hk
      omega
    have ih := nextLayer_getD H rest k hk'
    have hidx : 2 * (k + 1) = 2 * k + 1 + 1 := by omega
    have hidx2 : 2 * (k + 1) + 1 = 2 * k + 1 + 1 + 1 := by omega
    simp only [nextLayer, hidx, hidx2, List.getD_cons_succ, List.length_cons, ih]
    congr 1
    by_cases h : 2 * k + 1 < rest.length
    · rw [if_pos h, if_pos (by omega)]
    · rw [if_neg h, if_neg (by omega)]

/-- `buildFromGo` never returns an empty layer list. -/
theorem buildFromGo_ne_nil (H : List Nat → List Nat) (fuel : Nat)
    (layer : List (List Nat)) : buildFromGo H fuel layer ≠ [] := by
  cases fuel with
  | zero => simp [buildFromGo]
  | succ fuel =>
    by_cases h : layer.length ≤ 1 <;> simp [buildFromGo, h]

/-- The bottom layer of `buildFromGo` is its input. -/
theorem buildFromGo_getD_zero (H : List Nat → List Nat) (fuel : Nat)
    (layer : List (List Nat)) : (buildFromGo H fuel layer).getD 0 [] = layer := by
  cases fuel with
  | zero => simp [buildFromGo]
  | succ fuel =>
    by_cases h : layer.length ≤ 1 <;> simp [buildFromGo, h]

/-- Each layer of `buildFromGo` above the bottom is `nextLayer` of the one
below it. -/
theorem buildFromGo_getD_succ (H : List Nat → List Nat) :
    ∀ (fuel : Nat) (layer : List (List Nat)) (j : Nat),
      j + 1 < (buildFromGo H fuel layer).length →
      (buildFromGo H fuel layer).getD (j + 1) [] =
        nextLayer H ((buildFromGo H fuel layer).getD j [])
  | 0, layer, j, hj => by simp [buildFromGo] at hj
  | fuel + 1, layer, j, hj => by
    by_cases h : layer.length ≤ 1
    · simp [buildFromGo, h] at hj
    · simp only [buildFromGo, if_neg h] at hj ⊢
      cases j with
      | zero =>
        simp only [List.getD_cons_succ, List.getD_cons_zero]
        exact buildFromGo_getD_zero H fuel (nextLayer H layer)
      | succ j =>
        simp only [List.getD_cons_succ]
        refine buildFromGo_getD_succ H fuel (nextLayer H layer) j ?_
        simp only [List.length_cons] at hj
        omega

/-- For an odd-length layer, the next layer's final slot holds the last
node hashed with itself. -/
theorem nextLayer_getLast_odd (H : List Nat → List Nat) (l : List (List Nat))
    (hodd : l.length % 2 = 1) :
    (nextLayer H l).getD ((l.length - 1) / 2) [] =
      Hnode H (l.getD (l.length - 1) []) (l.getD (l.length - 1) []) := by
  have hlt : 2 * ((l.length - 1) / 2) < l.length := by omega
  have h2 : 2 * ((l.length - 1) / 2) = l.length - 1 := by omega
  rw [nextLayer_getD H l _ hlt, h2, if_neg (by omega)]

/-- Dropping the last element of a cons with a non-empty tail keeps the
head. -/
theorem dropLast_cons_ne_nil {α : Type} (a : α) {l : List α} (h : l ≠ []) :
    (a :: l).dropLast = a :: l.dropLast := List.dropLast_cons_of_ne_nil h

/-- `rootOf` ignores a cons onto a non-empty layer list. -/
theorem rootOf_cons (a : List (List Nat)) {L : List (List (List Nat))}
    (h : L ≠ []) : MerkleTree.rootOf (a :: L) = MerkleTree.rootOf L := by
  simp only [MerkleTree.rootOf, List.getLastD_cons]
  congr 1
  rw [List.getLastD_eq_getLast?, List.getLastD_eq_getLast?]
  cases hL : L.getLast? with
  | none => exact absurd (List.getLast?_eq_none_iff.mp hL) h
  | some x => rfl

/-- Folding one proof step from position `i` of a layer lands on position
`i / 2` of the next layer. -/
theorem verifyStep_step (H : List Nat → List Nat) (l : List (List Nat))
    (i : Nat) (hi : i < l.length) :
    verifyStep H (l.getD i [])
      (if (i ^^^ 1) < l.length then
        ⟨l.getD (i ^^^ 1) [], (i ^^^ 1) % 2 == 0⟩
      else ⟨l.getD i [], false⟩) = (nextLayer H l).getD (i / 2) [] := by
  rcases Nat.even_or_odd i with ⟨k, hk⟩ | ⟨k, hk⟩
  · have hk' : i = 2 * k := by omega
    subst hk'
    rw [two_mul_xor_one]
    have hdiv : 2 * k / 2 = k := by omega
    have hmod : (2 * k + 1) % 2 = 1 := by omega
    rw [hdiv, nextLayer_getD H l k (by omega)]
    by_cases h : 2 * k + 1 < l.length
    · rw [if_pos h, if_pos h]
      simp [verifyStep, hmod]
    · rw [if_neg h, if_neg h]
      simp [verifyStep]
  · have hk' : i = 2 * k + 1 := by omega
    subst hk'
    rw [two_mul_add_one_xor_one]
    have hdiv : (2 * k + 1) / 2 = k := by omega
    have hmod : (2 * k) % 2 = 0 := by omega
    rw [hdiv, nextLayer_getD H l k (by omega), if_pos (by omega),
      if_pos (by omega)]
    simp [verifyStep, hmod]

/-- Round-trip across the whole layer stack: folding the emitted proof
steps from any in-range position of the bottom layer reaches the root
node, for any hash primitive. -/
theorem buildFromGo_roundtrip (H : List Nat → List Nat) :
    ∀ (fuel : Nat) (layer : List (List Nat)) (i : Nat),
      layer.length ≤ fuel + 1 → i < layer.length →
      verifyChain H (proofLoop H (buildFromGo H fuel layer).dropLast i)
          (layer.getD i []) = MerkleTree.rootOf (buildFromGo H fuel layer)
  | 0, layer, i, hfuel, hi => by
    have h1 : layer.length = 1 := by omega
    have hi0 : i = 0 := by omega
    subst hi0
    match layer, h1 with
    | [a], _ => simp [buildFromGo, proofLoop, verifyChain, MerkleTree.rootOf]
  | fuel + 1, layer, i, hfuel, hi => by
    by_cases h : layer.length ≤ 1
    · have h1 : layer.length = 1 := by omega
      have hi0 : i = 0 := by omega
      subst hi0
      match layer, h1 with
      | [a], _ => simp [buildFromGo, proofLoop, verifyChain, MerkleTree.rootOf]
    · have hne := buildFromGo_ne_nil H fuel (nextLayer H layer)
      have hstep := verifyStep_step H layer i hi
      have hlen := nextLayer_length H layer
      have ih := buildFromGo_roundtrip H fuel (nextLayer H layer) (i / 2)
        (by omega) (by omega)
      simp only [buildFromGo, if_neg h, dropLast_cons_ne_nil _ hne, proofLoop,
        verifyChain, List.foldl_cons]
      rw [rootOf_cons _ hne]
      simp only [verifyChain] at ih
      rw [← ih]
      congr 1

/-! ## Claim theorems: Merkle subsystem -/

/-- C1: for every non-empty list of leaf byte strings and every valid index
`i`, the verification loop of `verify_row.py` — starting from the record's
leaf hash and combining `Hnode(sib, cur)` when the step's `is_left` flag is
set and `Hnode(cur, sib)` otherwise — recomputes exactly
`MerkleTree.root()` from `MerkleTree.proof(i)`. -/
theorem merkle_roundtrip_verifies (leaves : List (List Nat)) (i : Nat)
    (hne : leaves ≠ []) (hi : i < leaves.length) :
    verifyChain sha256 (MerkleTree.proof sha256 leaves i)
        (Hleaf sha256 (leaves.getD i [])) = MerkleTree.root sha256 leaves := by
  have hml : leaves.map (Hleaf sha256) ≠ [] := by simpa using hne
  have hgd : (leaves.map (Hleaf sha256)).getD i [] =
      Hleaf sha256 (leaves.getD i []) := by
    rw [List.getD_eq_getElem?_getD, List.getElem?_map,
      List.getD_eq_getElem?_getD, List.getElem?_eq_getElem hi]
    rfl
  have hmlen : (leaves.map (Hleaf sha256)).length = leaves.length :=
    List.length_map ..
  have main := buildFromGo_roundtrip sha256 (leaves.map (Hleaf sha256)).length
    (leaves.map (Hleaf sha256)) i (by omega) (by omega)
  rw [hgd] at main
  have hlayers : MerkleTree.layers sha256 leaves =
      buildFromGo sha256 (leaves.map (Hleaf sha256)).length
        (leaves.map (Hleaf sha256)) := by
    simp [MerkleTree.layers, hml]
  have hLne : MerkleTree.layers sha256 leaves ≠ [] := by
    rw [hlayers]; exact buildFromGo_ne_nil _ _ _
  have hroot : MerkleTree.root sha256 leaves =
      MerkleTree.rootOf (MerkleTree.layers sha256 leaves) := by
    simp [MerkleTree.root, hLne]
  rw [MerkleTree.proof, hlayers, hroot, hlayers]
  exact main

/-- C1 witness: the concrete 3-leaf tree over records `"a"`, `"b"`, `"c"`
at index 1. -/
theorem merkle_roundtrip_verifies_witness :
    ([[0x61], [0x62], [0x63]] : List (List Nat)) ≠ [] ∧
    1 < ([[0x61], [0x62], [0x63]] : List (List Nat)).length ∧
    verifyChain sha256 (MerkleTree.proof sha256 [[0x61], [0x62], [0x63]] 1)
        (Hleaf sha256 (([[0x61], [0x62], [0x63]] : List (List Nat)).getD 1 []))
      = MerkleTree.root sha256 [[0x61], [0x62], [0x63]] :=
  ⟨by decide, by decide,
    merkle_roundtrip_verifies [[0x61], [0x62], [0x63]] 1 (by decide) (by decide)⟩

set_option maxRecDepth 100000 in
/-- C2 counterexample: in the 3-leaf tree the bottom layer has odd length,
yet its final node does not reappear in the next layer at all — the claim
that the carried-forward node is reused unmodified fails on the code. -/
theorem merkle_carry_forward_counterexample :
    ((MerkleTree.layers sha256 [[0x61], [0x62], [0x63]]).getD 0 []).length % 2
        = 1 ∧
    ¬ ((MerkleTree.layers sha256 [[0x61], [0x62], [0x63]]).getD 0 []).getD 2 []
        ∈ (MerkleTree.layers sha256 [[0x61], [0x62], [0x63]]).getD 1 [] := by
  decide

/-- C2 amended: during construction, when layer `j` has odd length the
final unpaired node is *not* carried forward unchanged; the slot of the
next layer that covers it holds `Hnode(node, node)` — the node hashed with
itself. -/
theorem merkle_odd_layer_rehash (leaves : List (List Nat)) (j : Nat)
    (hj : j + 1 < (MerkleTree.layers sha256 leaves).length)
    (hodd : ((MerkleTree.layers sha256 leaves).getD j []).length % 2 = 1) :
    ((MerkleTree.layers sha256 leaves).getD (j + 1) []).getD
        ((((MerkleTree.layers sha256 leaves).getD j []).length - 1) / 2) [] =
      Hnode sha256
        (((MerkleTree.layers sha256 leaves).getD j []).getD
          (((MerkleTree.layers sha256 leaves).getD j []).length - 1) [])
        (((MerkleTree.layers sha256 leaves).getD j []).getD
          (((MerkleTree.layers sha256 leaves).getD j []).length - 1) []) := by
  have hml : leaves.map (Hleaf sha256) ≠ [] := by
    intro h
    rw [MerkleTree.layers] at hj
    simp only [h] at hj
    simp at hj
  have hlayers : MerkleTree.layers sha256 leaves =
      buildFromGo sha256 (leaves.map (Hleaf sha256)).length
        (leaves.map (Hleaf sha256)) := by
    simp [MerkleTree.layers, hml]
  rw [hlayers] at hj hodd ⊢
  rw [buildFromGo_getD_succ sha256 _ _ j hj]
  exact nextLayer_getLast_odd sha256 _ hodd

/-- C2 amended witness: the 3-leaf tree, bottom layer (odd length 3). -/
theorem merkle_odd_layer_rehash_witness :
    (0 + 1 < (MerkleTree.layers sha256 [[0x61], [0x62], [0x63]]).length ∧
     ((MerkleTree.layers sha256 [[0x61], [0x62], [0x63]]).getD 0 []).length % 2
       = 1) ∧
    ((MerkleTree.layers sha256 [[0x61], [0x62], [0x63]]).getD (0 + 1) []).getD
        ((((MerkleTree.layers sha256 [[0x61], [0x62], [0x63]]).getD 0
            []).length - 1) / 2) [] =
      Hnode sha256
        (((MerkleTree.layers sha256 [[0x61], [0x62], [0x63]]).getD 0 []).getD
          (((MerkleTree.layers sha256 [[0x61], [0x62], [0x63]]).getD 0
              []).length - 1) [])
        (((MerkleTree.layers sha256 [[0x61], [0x62], [0x63]]).getD 0 []).getD
          (((MerkleTree.layers sha256 [[0x61], [0x62], [0x63]]).getD 0
              []).length - 1) []) :=
  ⟨⟨by decide, by decide⟩,
    merkle_odd_layer_rehash [[0x61], [0x62], [0x63]] 0 (by decide) (by decide)⟩

/-- C9: a single-leaf tree's root is `H_leaf(leaf)` and its proof path is
empty, and the empty tree's root is the zero-length digest `b''` rather
than an error. -/
theorem merkle_singleton_and_empty (l : List Nat) :
    MerkleTree.root sha256 [l] = Hleaf sha256 l ∧
    MerkleTree.proof sha256 [l] 0 = [] ∧
    MerkleTree.root sha256 [] = [] :=
  ⟨rfl, rfl, rfl⟩

/-- C10: record canonicalization is not injective — a `None` field and an
empty-string field serialize to the same bytes, so the two distinct records
share the leaf hash, the Merkle root in any surrounding dataset, and every
verification outcome. -/
theorem canonical_none_empty_collision (pre post : List (Option (List Nat))) :
    pre ++ none :: post ≠ pre ++ some [] :: post ∧
    canonical_row_bytes (pre ++ none :: post) =
      canonical_row_bytes (pre ++ some [] :: post) ∧
    Hleaf sha256 (canonical_row_bytes (pre ++ none :: post)) =
      Hleaf sha256 (canonical_row_bytes (pre ++ some [] :: post)) ∧
    (∀ rs1 rs2 : List (List (Option (List Nat))),
      MerkleTree.root sha256
          ((rs1 ++ (pre ++ none :: post) :: rs2).map canonical_row_bytes) =
        MerkleTree.root sha256
          ((rs1 ++ (pre ++ some [] :: post) :: rs2).map canonical_row_bytes)) ∧
    (∀ steps : List ProofStep,
      verifyChain sha256 steps
          (Hleaf sha256 (canonical_row_bytes (pre ++ none :: post))) =
        verifyChain sha256 steps
          (Hleaf sha256 (canonical_row_bytes (pre ++ some [] :: post)))) := by
  have hc : canonical_row_bytes (pre ++ none :: post) =
      canonical_row_bytes (pre ++ some [] :: post) := by
    simp [canonical_row_bytes]
  refine ⟨?_, hc, by rw [hc], ?_, ?_⟩
  · intro h
    have := List.append_cancel_left h
    simp at this
  · intro rs1 rs2
    have hmap : (rs1 ++ (pre ++ none :: post) :: rs2).map canonical_row_bytes
        = (rs1 ++ (pre ++ some [] :: post) :: rs2).map canonical_row_bytes := by
      simp [hc]
    rw [hmap]
  · intro steps
    rw [hc]

/-! ## Claim theorems: RPC pool construction and rotation -/

/-- The `k`-th of a run of consecutive `_pick` calls returns the endpoint
at cursor offset `k`. -/
theorem selections_getD :
    ∀ (N : Nat) (p : RpcPool) (k : Nat), k < N →
      (p.selections N).getD k "" = p.urls.getD ((p.rr + k) % p.urls.length) ""
  | 0, _, _, hk => absurd hk (by omega)
  | N + 1, p, 0, _ => by
    simp [RpcPool.selections, RpcPool._pick]
  | N + 1, p, k + 1, hk => by
    have ih := selections_getD N ⟨p.urls, p.rr + 1⟩ k (by omega)
    simp only [RpcPool.selections, List.getD_cons_succ, RpcPool._pick] at ih ⊢
    rw [ih]
    have harg : p.rr + 1 + k = p.rr + (k + 1) := by omega
    rw [harg]

/-- Exact pick count for each endpoint index over `N` consecutive picks. -/
theorem selCount_formula (p : RpcPool) (hne : p.urls ≠ []) (N j : Nat)
    (hj : j < p.urls.length) :
    p.selCount N j = N / p.urls.length +
      if (j + p.rr * (p.urls.length - 1)) % p.urls.length < N % p.urls.length
      then 1 else 0 := by
  have hL : 0 < p.urls.length := List.length_pos.mpr hne
  set L := p.urls.length with hLdef
  set v := j + p.rr * (L - 1) with hvdef
  have hsum : p.rr + v = j + p.rr * L := by
    have h2 : p.rr * L = p.rr * (L - 1) + p.rr := by
      conv_lhs => rw [show L = (L - 1) + 1 by omega]
      rw [Nat.mul_succ]
    omega
  have hv : (p.rr + v) % L = j % L := by
    rw [hsum, Nat.add_mul_mod_self_right]
  have hiff : ∀ k, ((p.rr + k) % L = j) ↔ (k ≡ v [MOD L]) := by
    intro k
    constructor
    · intro h
      have h' : p.rr + k ≡ p.rr + v [MOD L] := by
        unfold Nat.ModEq
        rw [hv, Nat.mod_eq_of_lt hj, h]
      exact Nat.ModEq.add_left_cancel' p.rr h'
    · intro h
      have h' : p.rr + k ≡ p.rr + v [MOD L] := Nat.ModEq.add_left p.rr h
      calc (p.rr + k) % L = (p.rr + v) % L := h'
        _ = j % L := hv
        _ = j := Nat.mod_eq_of_lt hj
  have h1 : ((List.range N).filter
        (fun k => decide ((p.rr + k) % L = j))).length
      = ((List.range N).filter (fun k => decide (k ≡ v [MOD L]))).length := by
    congr 1
    apply List.filter_congr
    intro k _
    exact decide_eq_decide.mpr (hiff k)
  have h2 : Nat.count (fun k => k ≡ v [MOD L]) N =
      ((List.range N).filter (fun k => decide (k ≡ v [MOD L]))).length := by
    rw [Nat.count, List.countP_eq_length_filter]
  rw [RpcPool.selCount, h1, ← h2, Nat.count_modEq_card N hL v]

/-- C5: endpoint selection is strict round-robin — `_pick` returns the
endpoint at the cursor position modulo the pool size and advances the
cursor by one, the `k`-th of `N` consecutive selections is the endpoint at
offset `k` from the initial position, and over any `N` selections each
endpoint index is chosen exactly `⌊N/P⌋` or `⌊N/P⌋ + 1` times. -/
theorem rpc_round_robin (p : RpcPool) (hne : p.urls ≠ []) :
    p._pick = (p.urls.getD (p.rr % p.urls.length) "", ⟨p.urls, p.rr + 1⟩) ∧
    (∀ N k, k < N →
      (p.selections N).getD k "" =
        p.urls.getD ((p.rr + k) % p.urls.length) "") ∧
    (∀ N j, j < p.urls.length →
      p.selCount N j = N / p.urls.length ∨
        p.selCount N j = N / p.urls.length + 1) := by
  refine ⟨rfl, fun N k hk => selections_getD N p k hk, fun N j hj => ?_⟩
  rw [selCount_formula p hne N j hj]
  by_cases h : (j + p.rr * (p.urls.length - 1)) % p.urls.length
      < N % p.urls.length
  · right; rw [if_pos h]
  · left; rw [if_neg h]; omega

/-- C5 witness: a two-endpoint pool starting at cursor 1. -/
theorem rpc_round_robin_witness :
    (RpcPool.mk ["a", "b"] 1).urls ≠ [] ∧
    ((RpcPool.mk ["a", "b"] 1)._pick = ("b", RpcPool.mk ["a", "b"] 2) ∧
     (∀ N k, k < N →
       ((RpcPool.mk ["a", "b"] 1).selections N).getD k "" =
         ["a", "b"].getD ((1 + k) % 2) "") ∧
     (∀ N j, j < 2 →
       (RpcPool.mk ["a", "b"] 1).selCount N j = N / 2 ∨
         (RpcPool.mk ["a", "b"] 1).selCount N j = N / 2 + 1)) :=
  ⟨by decide, rpc_round_robin (RpcPool.mk ["a", "b"] 1) (by decide)⟩

/-- C8: `RpcPool.__init__` raises `"No RPC endpoints configured"` exactly
when the resolved endpoint list is empty, and with an empty explicit list
and empty environment configuration it succeeds with the built-in fallback
list (which, being non-empty, means the error is in fact unreachable). -/
theorem rpc_pool_init_fallback (urls : UrlsArg) (env : String) :
    (RpcPool.init urls env = .error "No RPC endpoints configured" ↔
      RpcPool.resolvedUrls urls env = []) ∧
    (_parse_urls urls = [] → _parse_urls (.str env) = [] →
      RpcPool.init urls env = .ok FREE_RPC_FALLBACKS) := by
  constructor
  · unfold RpcPool.init
    by_cases h : RpcPool.resolvedUrls urls env = []
    · simp [h]
    · simp [h]
  · intro h1 h2
    unfold RpcPool.init RpcPool.resolvedUrls
    rw [h1, h2]
    simp [FREE_RPC_FALLBACKS]

/-- C8 witness: explicit empty list, unset environment. -/
theorem rpc_pool_init_fallback_witness :
    _parse_urls (.list []) = [] ∧ _parse_urls (.str "") = [] ∧
    RpcPool.init (.list []) "" = .ok FREE_RPC_FALLBACKS :=
  ⟨by decide, by decide,
    (rpc_pool_init_fallback (.list []) "").2 (by decide) (by decide)⟩

/-! ## `RpcPool.post` retry-loop lemmas -/

/-- A non-retryable outcome is an HTTP 200 whose body either fails to
parse or parses without an `"error"` field. -/
theorem retryable_false_elim (a : HttpAttempt) (h : a.retryable = false) :
    ∃ text body, a = .resp 200 text body ∧
      (body = none ∨ ∃ d, body = some d ∧ d.hasErrorKey = false) := by
  cases a with
  | exn msg => simp [HttpAttempt.retryable] at h
  | resp status text body =>
    by_cases hs : status == 200
    · have hs' : status = 200 := by simpa using hs
      subst hs'
      cases body with
      | none => exact ⟨text, none, rfl, Or.inl rfl⟩
      | some d =>
        refine ⟨text, some d, rfl, Or.inr ⟨d, rfl, ?_⟩⟩
        simpa [HttpAttempt.retryable] using h
    · simp [HttpAttempt.retryable, hs] at h

/-- Unfolding one retryable attempt of the loop: the recorded error is the
attempt's `errText` and one more attempt is consumed. -/
theorem postGo_retry_step (net : Nat → String → HttpAttempt)
    (fuel attempt : Nat) (p : RpcPool) (le : Option String)
    (h : (net attempt p._pick.1).retryable = true) :
    postGo net (fuel + 1) attempt p le =
      ((postGo net fuel (attempt + 1) p._pick.2
          (some ((net attempt p._pick.1).errText p._pick.1))).1,
       (postGo net fuel (attempt + 1) p._pick.2
          (some ((net attempt p._pick.1).errText p._pick.1))).2.1,
       (postGo net fuel (attempt + 1) p._pick.2
          (some ((net attempt p._pick.1).errText p._pick.1))).2.2 + 1) := by
  cases ha : net attempt p._pick.1 with
  | exn msg => simp only [postGo, ha, HttpAttempt.errText]
  | resp status text body =>
    rw [ha] at h
    simp only [postGo, ha, HttpAttempt.errText]
    split_ifs with h1 h2 h3
    · rfl
    · rfl
    · rfl
    · cases body with
      | none =>
        exfalso
        have h200 : status = 200 := by omega
        subst h200
        simp [HttpAttempt.retryable] at h
      | some d =>
        by_cases hd : d.hasErrorKey
        · simp only [hd, if_true]
        · exfalso
          have h200 : status = 200 := by omega
          subst h200
          simp [HttpAttempt.retryable, hd] at h

/-- Unfolding an attempt whose 200 body fails to parse: immediate terminal
failure consuming exactly this attempt. -/
theorem postGo_invalid_step (net : Nat → String → HttpAttempt)
    (fuel attempt : Nat) (p : RpcPool) (le : Option String) (text : String)
    (ha : net attempt p._pick.1 = .resp 200 text none) :
    postGo net (fuel + 1) attempt p le =
      (false, .invalid_json (text.take 400), 1) := by
  simp only [postGo, ha]
  rfl

/-- Unfolding a successful attempt: the parsed body is returned after
exactly this attempt. -/
theorem postGo_success_step (net : Nat → String → HttpAttempt)
    (fuel attempt : Nat) (p : RpcPool) (le : Option String) (text : String)
    (d : Json) (ha : net attempt p._pick.1 = .resp 200 text (some d))
    (hd : d.hasErrorKey = false) :
    postGo net (fuel + 1) attempt p le = (true, .json d, 1) := by
  simp only [postGo, ha, hd]
  rfl

/-- The loop never consumes more attempts than its fuel. -/
theorem postGo_attempts_le (net : Nat → String → HttpAttempt) :
    ∀ (fuel attempt : Nat) (p : RpcPool) (le : Option String),
      (postGo net fuel attempt p le).2.2 ≤ fuel
  | 0, _, _, _ => Nat.le_refl 0
  | fuel + 1, attempt, p, le => by
    cases hre : (net attempt p._pick.1).retryable with
    | true =>
      rw [postGo_retry_step net fuel attempt p le hre]
      have ih := postGo_attempts_le net fuel (attempt + 1) p._pick.2
        (some ((net attempt p._pick.1).errText p._pick.1))
      simpa using Nat.succ_le_succ ih
    | false =>
      obtain ⟨text, body, ha, hb⟩ := retryable_false_elim _ hre
      rcases hb with hb | ⟨d, hb, hd⟩
      · subst hb
        rw [postGo_invalid_step net fuel attempt p le text ha]
        exact Nat.le_add_left 1 fuel
      · subst hb
        rw [postGo_success_step net fuel attempt p le text d ha hd]
        exact Nat.le_add_left 1 fuel

/-- With at least one unit of fuel, at least one attempt is made. -/
theorem postGo_attempts_pos (net : Nat → String → HttpAttempt)
    (fuel attempt : Nat) (p : RpcPool) (le : Option String) (h : 1 ≤ fuel) :
    1 ≤ (postGo net fuel attempt p le).2.2 := by
  match fuel, h with
  | fuel + 1, _ =>
    cases hre : (net attempt p._pick.1).retryable with
    | true =>
      rw [postGo_retry_step net fuel attempt p le hre]
      exact Nat.le_add_left 1 _
    | false =>
      obtain ⟨text, body, ha, hb⟩ := retryable_false_elim _ hre
      rcases hb with hb | ⟨d, hb, hd⟩
      · subst hb
        rw [postGo_invalid_step net fuel attempt p le text ha]
      · subst hb
        rw [postGo_success_step net fuel attempt p le text d ha hd]

/-- Advancing the pick state shifts the endpoint schedule by one. -/
theorem urlAt_succ (p : RpcPool) (d : Nat) :
    urlAt p._pick.2 d = urlAt p (d + 1) := by
  have harg : p.rr + 1 + d = p.rr + (d + 1) := by omega
  simp only [urlAt, RpcPool._pick, harg]

/-- If every attempt in the window is retryable, the loop exhausts its fuel
and reports the last attempt's error text. -/
theorem postGo_all_fail (net : Nat → String → HttpAttempt) :
    ∀ (fuel attempt : Nat) (p : RpcPool) (le : Option String),
      (∀ d, d ≤ fuel → (net (attempt + d) (urlAt p d)).retryable = true) →
      postGo net (fuel + 1) attempt p le =
        (false,
         .errObj (some ((net (attempt + fuel) (urlAt p fuel)).errText
           (urlAt p fuel))),
         fuel + 1)
  | 0, attempt, p, le, hall => by
    have h0 : (net attempt p._pick.1).retryable = true := hall 0 (by omega)
    rw [postGo_retry_step net 0 attempt p le h0]
    rfl
  | fuel + 1, attempt, p, le, hall => by
    have h0 : (net attempt p._pick.1).retryable = true := hall 0 (by omega)
    rw [postGo_retry_step net (fuel + 1) attempt p le h0]
    have ih := postGo_all_fail net fuel (attempt + 1) p._pick.2
      (some ((net attempt p._pick.1).errText p._pick.1))
      (fun d hd => by
        have hh := hall (d + 1) (by omega)
        rw [urlAt_succ p d]
        have harg : attempt + 1 + d = attempt + (d + 1) := by omega
        rw [harg]
        exact hh)
    rw [ih, urlAt_succ p fuel]
    have harg : attempt + 1 + fuel = attempt + (fuel + 1) := by omega
    rw [harg]

/-- An attempt whose 200 body fails to parse, after a retryable prefix,
terminates the loop at exactly that attempt. -/
theorem postGo_invalid_at (net : Nat → String → HttpAttempt) :
    ∀ (k fuel attempt : Nat) (p : RpcPool) (le : Option String)
      (text : String),
      k < fuel →
      (∀ d, d < k → (net (attempt + d) (urlAt p d)).retryable = true) →
      net (attempt + k) (urlAt p k) = .resp 200 text none →
      postGo net fuel attempt p le =
        (false, .invalid_json (text.take 400), k + 1)
  | 0, fuel, attempt, p, le, text, hk, _, ha => by
    match fuel, hk with
    | f + 1, _ =>
      exact postGo_invalid_step net f attempt p le text ha
  | k + 1, fuel, attempt, p, le, text, hk, hall, ha => by
    match fuel, hk with
    | f + 1, _ =>
      have h0 : (net attempt p._pick.1).retryable = true := hall 0 (by omega)
      rw [postGo_retry_step net f attempt p le h0]
      have ih := postGo_invalid_at net k f (attempt + 1) p._pick.2
        (some ((net attempt p._pick.1).errText p._pick.1)) text (by omega)
        (fun d hd => by
          have hh := hall (d + 1) (by omega)
          rw [urlAt_succ p d]
          have harg : attempt + 1 + d = attempt + (d + 1) := by omega
          rw [harg]
          exact hh)
        (by
          rw [urlAt_succ p k]
          have harg : attempt + 1 + k = attempt + (k + 1) := by omega
          rw [harg]
          exact ha)
      rw [ih]

/-- A retryable prefix of `k` attempts forces strictly more than `k`
attempts to be consumed. -/
theorem postGo_attempts_gt (net : Nat → String → HttpAttempt) :
    ∀ (k fuel attempt : Nat) (p : RpcPool) (le : Option String),
      k < fuel →
      (∀ d, d < k → (net (attempt + d) (urlAt p d)).retryable = true) →
      k < (postGo net fuel attempt p le).2.2
  | 0, fuel, attempt, p, le, hk, _ =>
    postGo_attempts_pos net fuel attempt p le (by omega)
  | k + 1, fuel, attempt, p, le, hk, hall => by
    match fuel, hk with
    | f + 1, _ =>
      have h0 : (net attempt p._pick.1).retryable = true := hall 0 (by omega)
      rw [postGo_retry_step net f attempt p le h0]
      have ih := postGo_attempts_gt net k f (attempt + 1) p._pick.2
        (some ((net attempt p._pick.1).errText p._pick.1)) (by omega)
        (fun d hd => by
          have hh := hall (d + 1) (by omega)
          rw [urlAt_succ p d]
          have harg : attempt + 1 + d = attempt + (d + 1) := by omega
          rw [harg]
          exact hh)
      simpa using Nat.succ_lt_succ ih

/-! ## Claim theorems: `RpcPool.post` -/

/-- C3: `post` consumes at most `max_retries` attempts, and when every
attempt classifies as a retryable failure it returns the explicit pair
`(False, {"error": last_err})` carrying the last attempt's error
description.  The embedding is a total function: every branch of the source
loop returns an `(ok, data)` pair and no exception escapes (`except
Exception` wraps the request, the remaining branches only classify and
return). -/
theorem rpc_post_attempt_bound_and_failure (net : Nat → String → HttpAttempt)
    (p : RpcPool) (max_retries : Nat) :
    (RpcPool.post net p max_retries).2.2 ≤ max_retries ∧
    (∀ fuel, max_retries = fuel + 1 →
      (∀ d, d ≤ fuel → (net (1 + d) (urlAt p d)).retryable = true) →
      RpcPool.post net p max_retries =
        (false,
         .errObj (some ((net (1 + fuel) (urlAt p fuel)).errText
           (urlAt p fuel))),
         max_retries)) := by
  constructor
  · exact postGo_attempts_le net max_retries 1 p none
  · intro fuel hf hall
    subst hf
    exact postGo_all_fail net fuel 1 p none hall

/-- C3 witness: a single-endpoint pool whose two configured attempts both
return HTTP 500. -/
theorem rpc_post_attempt_bound_and_failure_witness :
    (RpcPool.post (fun _ _ => .resp 500 "boom" none) ⟨["u"], 0⟩ 2).2.2 ≤ 2 ∧
    RpcPool.post (fun _ _ => .resp 500 "boom" none) ⟨["u"], 0⟩ 2 =
      (false,
       .errObj (some ((HttpAttempt.resp 500 "boom" none).errText "u")), 2) := by
  refine ⟨(rpc_post_attempt_bound_and_failure
    (fun _ _ => .resp 500 "boom" none) ⟨["u"], 0⟩ 2).1, ?_⟩
  exact (rpc_post_attempt_bound_and_failure
    (fun _ _ => .resp 500 "boom" none) ⟨["u"], 0⟩ 2).2 1 rfl (by decide)

/-- C4: a 200 response whose body fails to parse as JSON is terminal — if
the first `k` attempts are retryable failures and attempt `k + 1` returns
an unparseable 200 body, `post` returns
`(False, {"error": "invalid_json", …})` having consumed exactly `k + 1`
attempts; by contrast a retryable prefix of `k` attempts (429, ≥500, other
non-200, RPC-level error) always consumes strictly more than `k`
attempts. -/
theorem rpc_post_invalid_json_terminal (net : Nat → String → HttpAttempt)
    (p : RpcPool) (max_retries : Nat) :
    (∀ k text, k < max_retries →
      (∀ d, d < k → (net (1 + d) (urlAt p d)).retryable = true) →
      net (1 + k) (urlAt p k) = .resp 200 text none →
      RpcPool.post net p max_retries =
        (false, .invalid_json (text.take 400), k + 1)) ∧
    (∀ k, k < max_retries →
      (∀ d, d < k → (net (1 + d) (urlAt p d)).retryable = true) →
      k < (RpcPool.post net p max_retries).2.2) := by
  constructor
  · intro k text hk hall ha
    exact postGo_invalid_at net k max_retries 1 p none text hk hall ha
  · intro k hk hall
    exact postGo_attempts_gt net k max_retries 1 p none hk hall

/-- C4 witness: attempt 1 is a 429, attempt 2 returns 200 with an
unparseable body; with 6 configured attempts only 2 are consumed. -/
theorem rpc_post_invalid_json_terminal_witness :
    (1 < 6 ∧
     RpcPool.post
        (fun k _ => if k == 1 then .resp 429 "rate" none
         else .resp 200 "nope" none) ⟨["u"], 0⟩ 6 =
       (false, .invalid_json ("nope".take 400), 2)) ∧
    1 < (RpcPool.post
        (fun k _ => if k == 1 then .resp 429 "rate" none
         else .resp 200 "nope" none) ⟨["u"], 0⟩ 6).2.2 :=
  ⟨⟨by decide,
    (rpc_post_invalid_json_terminal
      (fun k _ => if k == 1 then .resp 429 "rate" none
       else .resp 200 "nope" none) ⟨["u"], 0⟩ 6).1 1 "nope" (by decide)
      (by decide) rfl⟩,
   (rpc_post_invalid_json_terminal
      (fun k _ => if k == 1 then .resp 429 "rate" none
       else .resp 200 "nope" none) ⟨["u"], 0⟩ 6).2 1 (by decide) (by decide)⟩

/-! ## Claim theorems: harvester -/

set_option maxRecDepth 10000 in
/-- C6 counterexample: a probe that fails on attempts 1–4 but would
resolve on attempt 5.  The resolution loop is `for attempt in range(1,
5)` — four attempts — so the run still terminates early with the
header-only file, refuting "retried up to 5 times". -/
theorem harvest_latest_five_counterexample :
    (∀ k, k ≤ 4 → 1 ≤ k →
      latestOfAttempt
        ((fun k => if k == 5 then (true, BlockNumResp.dictResult "0x10")
          else (false, BlockNumResp.other)) k) = none) ∧
    latestOfAttempt
      ((fun k => if k == 5 then (true, BlockNumResp.dictResult "0x10")
        else (false, BlockNumResp.other)) 5) = some 16 ∧
    harvestStart
      (fun k => if k == 5 then (true, BlockNumResp.dictResult "0x10")
        else (false, BlockNumResp.other)) = .earlyEmpty "address\n" := by
  refine ⟨?_, ?_, ?_⟩ <;> decide

/-- C6 amended: the latest-block bound is resolved by a dedicated single
request retried up to 4 times (the loop is `range(1, 5)`), with linear
backoff between attempts; if none of the four attempts resolves, the run
terminates early yielding an output file holding only the header
`"address\n"` instead of raising, and the first resolving attempt fixes
the scan bound. -/
theorem harvest_latest_resolution (probe : Nat → Bool × BlockNumResp) :
    ((∀ k, k ≤ 4 → 1 ≤ k → latestOfAttempt (probe k) = none) →
      harvestStart probe = .earlyEmpty "address\n") ∧
    (∀ n, latestOfAttempt (probe 1) = some n →
      harvestStart probe = .proceed n) := by
  have hrange : List.range 4 = [0, 1, 2, 3] := rfl
  constructor
  · intro h
    have h1 := h 1 (by omega) (by omega)
    have h2 := h 2 (by omega) (by omega)
    have h3 := h 3 (by omega) (by omega)
    have h4 := h 4 (by omega) (by omega)
    have hr : resolveLatest probe = none := by
      rw [resolveLatest, hrange]
      simp [h1, h2, h3, h4, Option.orElse]
    simp [harvestStart, hr]
  · intro n hn
    have hr : resolveLatest probe = some n := by
      rw [resolveLatest, hrange]
      simp [hn, Option.orElse]
    simp [harvestStart, hr]

/-- C6 amended witness: a probe that always fails, and one that resolves
`0xff` on the first attempt. -/
theorem harvest_latest_resolution_witness :
    ((∀ k, k ≤ 4 → 1 ≤ k →
       latestOfAttempt
         ((fun _ => ((false : Bool), BlockNumResp.other)) k) = none) ∧
     harvestStart (fun _ => ((false : Bool), BlockNumResp.other)) =
       .earlyEmpty "address\n") ∧
    (latestOfAttempt
        ((fun _ => ((true : Bool), BlockNumResp.dictResult "0xff")) 1) =
       some 255 ∧
     harvestStart (fun _ => ((true : Bool), BlockNumResp.dictResult "0xff")) =
       .proceed 255) :=
  ⟨⟨by decide,
    (harvest_latest_resolution (fun _ => (false, BlockNumResp.other))).1
      (by decide)⟩,
   ⟨by decide,
    (harvest_latest_resolution
      (fun _ => (true, BlockNumResp.dictResult "0xff"))).2 255 (by decide)⟩⟩

/-- When the three batch attempts for a chunk all fail, the retry loop
yields nothing. -/
theorem batchWithRetries_all_none
    (batchTry : Nat → Option (List (Option Block)))
    (h : ∀ a, a ≤ BATCH_RETRIES → 1 ≤ a → batchTry a = none) :
    batchWithRetries batchTry BATCH_RETRIES = none := by
  have h1 := h 1 (by decide) (by decide)
  have h2 := h 2 (by decide) (by decide)
  have h3 := h 3 (by decide) (by decide)
  have hrange : List.range BATCH_RETRIES = [0, 1, 2] := rfl
  rw [batchWithRetries, hrange]
  simp [h1, h2, h3, Option.orElse]

/-- A member all of whose single-fetch attempts fail is reported missing. -/
theorem fetch_single_all_none (single : Nat → Option Block)
    (h : ∀ a, a ≤ SINGLE_RETRIES → 1 ≤ a → single a = none) :
    fetch_block_with_retries single SINGLE_RETRIES = none := by
  have h1 := h 1 (by decide) (by decide)
  have h2 := h 2 (by decide) (by decide)
  have h3 := h 3 (by decide) (by decide)
  have hrange : List.range SINGLE_RETRIES = [0, 1, 2] := rfl
  rw [fetch_block_with_retries, hrange]
  simp [h1, h2, h3, Option.orElse]

/-- Missing members contribute nothing to address extraction. -/
theorem extractAddrs_filter_isSome :
    ∀ res : List (Option Block),
      extractAddrs res = extractAddrs (res.filter Option.isSome)
  | [] => rfl
  | none :: rest => by
    have ih := extractAddrs_filter_isSome rest
    simp only [extractAddrs, List.flatMap_cons, List.filter_cons] at ih ⊢
    simp [ih]
  | some b :: rest => by
    have ih := extractAddrs_filter_isSome rest
    simp only [extractAddrs, List.flatMap_cons, List.filter_cons] at ih ⊢
    simp [ih]

/-- C7: when the batched call for a chunk fails outright on all three
batch attempts, the harvester issues one independent single fetch (with
its own three-attempt retry loop) per chunk member; a member that fails
all its retries yields `None`, is excluded from address extraction and
contributes nothing; and the sweep continues with the remaining chunks
unconditionally. -/
theorem harvest_chunk_fallback
    (batchTry : Nat → Option (List (Option Block)))
    (single : Nat → Nat → Option Block) (chunk : List Nat)
    (hb : ∀ a, a ≤ BATCH_RETRIES → 1 ≤ a → batchTry a = none) :
    chunkResults batchTry single chunk =
      chunk.map (fun n => fetch_block_with_retries (single n) SINGLE_RETRIES) ∧
    (∀ n, (∀ a, a ≤ SINGLE_RETRIES → 1 ≤ a → single n a = none) →
      fetch_block_with_retries (single n) SINGLE_RETRIES = none) ∧
    extractAddrs (chunkResults batchTry single chunk) =
      extractAddrs ((chunkResults batchTry single chunk).filter
        Option.isSome) ∧
    (∀ (batchTryAll : List Nat → Nat → Option (List (Option Block)))
       (rest : List (List Nat)),
      harvestChunks batchTryAll single (chunk :: rest) =
        extractAddrs (chunkResults (batchTryAll chunk) single chunk) ++
          harvestChunks batchTryAll single rest) := by
  refine ⟨?_, ?_, extractAddrs_filter_isSome _, ?_⟩
  · simp [chunkResults, batchWithRetries_all_none batchTry hb]
  · intro n hn
    exact fetch_single_all_none (single n) hn
  · intro bAll rest
    simp [harvestChunks]

/-- C7 witness: a chunk `[7]` whose batch attempts all fail and whose
member fails every single-fetch attempt. -/
theorem harvest_chunk_fallback_witness :
    (∀ a, a ≤ BATCH_RETRIES → 1 ≤ a →
      (fun _ : Nat => (none : Option (List (Option Block)))) a = none) ∧
    (chunkResults (fun _ : Nat => (none : Option (List (Option Block))))
       (fun (_ : Nat) (_ : Nat) => (none : Option Block)) [7] =
       [7].map (fun n => fetch_block_with_retries
         ((fun (_ : Nat) (_ : Nat) => (none : Option Block)) n)
         SINGLE_RETRIES) ∧
     (∀ n, (∀ a, a ≤ SINGLE_RETRIES → 1 ≤ a →
         (fun (_ : Nat) (_ : Nat) => (none : Option Block)) n a = none) →
       fetch_block_with_retries
         ((fun (_ : Nat) (_ : Nat) => (none : Option Block)) n)
         SINGLE_RETRIES = none) ∧
     extractAddrs (chunkResults
         (fun _ : Nat => (none : Option (List (Option Block))))
         (fun (_ : Nat) (_ : Nat) => (none : Option Block)) [7]) =
       extractAddrs ((chunkResults
         (fun _ : Nat => (none : Option (List (Option Block))))
         (fun (_ : Nat) (_ : Nat) => (none : Option Block)) [7]).filter
           Option.isSome) ∧
     (∀ (batchTryAll : List Nat → Nat → Option (List (Option Block)))
        (rest : List (List Nat)),
       harvestChunks batchTryAll
           (fun (_ : Nat) (_ : Nat) => (none : Option Block)) ([7] :: rest) =
         extractAddrs (chunkResults (batchTryAll [7])
           (fun (_ : Nat) (_ : Nat) => (none : Option Block)) [7]) ++
           harvestChunks batchTryAll
             (fun (_ : Nat) (_ : Nat) => (none : Option Block)) rest)) :=
  ⟨by decide,
   harvest_chunk_fallback (fun _ : Nat => (none : Option (List (Option Block))))
     (fun (_ : Nat) (_ : Nat) => (none : Option Block)) [7] (by decide)⟩

end EthRetcon
